import Mathlib

/-!
Verification of the natet-sos-generator scheduling core.

The `Member` value object is embedded from `src/generator/models/member.py`.
The schedule generator, its slot pool ("pot"), the day ledger ("sos days")
and the retry loop are not present under `src/` (only their tests are), so
they are modelled from the specification, as marked on each definition.
Dates are embedded as natural day numbers; the external calendar provider
is modelled as an explicit ordered list of eligible dates.
-/

set_option autoImplicit false

namespace NatetSos

/-- Member value object, embedded from `src/generator/models/member.py`
(`first_name`, `last_name`, `proportion`, `family`, `sponsor_for_family`
with their constructor defaults).  The `end_date` and `sponsored_by_family`
fields are modelled from the spec: the fuller `generator/model.py` Member
used by the generator is absent from `src/`; the spec lists both as
optional attributes defaulting to unset. -/
structure Member where
  first_name : String := ""
  last_name : String := ""
  proportion : Nat := 100
  family : Nat := 0
  sponsor_for_family : Option Nat := none
  end_date : Option Nat := none
  sponsored_by_family : Option Nat := none
deriving DecidableEq, Repr

/-- Derived name: first name, a space, then last name (member.py line 13). -/
def Member.name (m : Member) : String :=
  m.first_name ++ " " ++ m.last_name

/-- Derived sponsor flag: `sponsor_for_family is not None` (member.py line 17). -/
def Member.is_sponsor (m : Member) : Bool :=
  m.sponsor_for_family.isSome

/-- One scheduled day: a calendar date and the members assigned to it.
Modelled from the spec: the Day Ledger component is absent from `src/`. -/
structure Day where
  date : Nat
  members : List Member
deriving DecidableEq, Repr

/-- Generation configuration.  Modelled from the spec: both cooldown lengths
are configurable with positive defaults (exact default values are an open
question in the spec; the defaults here are placeholders and every theorem
quantifies over the configuration). -/
structure GenConfig where
  holy_period_length : Nat := 5
  sponsor_holy_period_length : Nat := 25
deriving DecidableEq, Repr

/-- Banker's rounding of `p / 50`, the Python `round(proportion / 50)` used
by the pot-building rule.  Modelled from the spec: `Generator._populate_pot`
is absent from `src/`; the spec fixes the rule `round(proportion / 50)`
with Python half-to-even ties (25 yields 0, 75 yields 2). -/
def sosRound (p : Nat) : Nat :=
  let q := p / 50
  let r := p % 50
  if 2 * r < 50 then q
  else if 50 < 2 * r then q + 1
  else if q % 2 == 0 then q else q + 1

/-- Slot pool construction.  Modelled from the spec: for each member, append
`round(proportion / 50)` references to that member. -/
def populate_pot (roster : List Member) : List Member :=
  roster.bind fun m => List.replicate (sosRound m.proportion) m

theorem count_populate_pot (roster : List Member) (m : Member) :
    (populate_pot roster).count m = roster.count m * sosRound m.proportion := by
  induction roster with
  | nil => simp [populate_pot]
  | cons x xs ih =>
      have hx : populate_pot (x :: xs)
          = List.replicate (sosRound x.proportion) x ++ populate_pot xs := rfl
      rw [hx, List.count_append, ih, List.count_replicate, List.count_cons]
      by_cases hxm : m = x
      · subst hxm
        simp [Nat.add_mul]
        omega
      · have hxm' : ¬ x = m := fun h => hxm h.symm
        simp [hxm']

theorem mem_populate_pot {roster : List Member} {m : Member}
    (h : m ∈ populate_pot roster) : m ∈ roster := by
  rcases List.mem_bind.mp h with ⟨a, ha, hm⟩
  rcases List.eq_of_mem_replicate hm with rfl
  exact ha

/-- Date proximity: the two dates lie within `k` calendar days of each other. -/
def datesWithin (d1 d2 k : Nat) : Bool :=
  d1 - d2 ≤ k && d2 - d1 ≤ k

/-- End-grace rule, modelled from the spec: a member becomes ineligible
starting from their `end_date`; with no `end_date` they are always eligible. -/
def endGraceOk (m : Member) (d : Nat) : Bool :=
  match m.end_date with
  | none => true
  | some e => d < e

/-- Family cooldown check, modelled from the spec: some already placed member
of family `fam` occupies a day whose date is within `hp` days of `d`. -/
def familyInHolyPeriod (hp : Nat) (ledger : List Day) (d : Nat) (fam : Nat) : Bool :=
  ledger.any fun D => datesWithin d D.date hp && D.members.any fun x => x.family == fam

/-- The generator's family-cooldown query
(`Generator._is_members_family_in_holy_period`), modelled from the spec. -/
def is_members_family_in_holy_period (cfg : GenConfig) (ledger : List Day)
    (d : Nat) (c : Member) : Bool :=
  familyInHolyPeriod cfg.holy_period_length ledger d c.family

/-- Append a member at date `d`: into the open trailing day of that date if it
has spare capacity, otherwise as a fresh day.  Modelled from the spec
(`SosDays.append_member` placement step). -/
def placeInLedger (ledger : List Day) (d : Nat) (c : Member) : List Day :=
  match ledger.getLast? with
  | some D =>
      if D.date == d && D.members.length < 2 then
        ledger.dropLast ++ [⟨D.date, D.members ++ [c]⟩]
      else ledger ++ [⟨d, [c]⟩]
  | none => [⟨d, [c]⟩]

/-- `append_member`, modelled from the spec: a non-forced placement attempt is
rejected — returning false and leaving the ledger unchanged — when the
end-grace rule or the family cooldown forbids it; otherwise the member is
placed and the call returns true. -/
def append_member (cfg : GenConfig) (ledger : List Day) (d : Nat) (c : Member) :
    Bool × List Day :=
  if endGraceOk c d && !is_members_family_in_holy_period cfg ledger d c then
    (true, placeInLedger ledger d c)
  else (false, ledger)

/-- Sponsored counterpart lookup, modelled from the spec: the member whose
`family` equals the sponsor's `sponsor_for_family`. -/
def counterpartOf (roster : List Member) (s : Member) : Option Member :=
  match s.sponsor_for_family with
  | none => none
  | some f => roster.find? fun m => m.family == f

/-- Sponsor cooldown, modelled from the spec: the sponsor pairing may not
repeat within `shp` days of the sponsor's previous appearance. -/
def sponsorCooldownOk (shp : Nat) (ledger : List Day) (d : Nat) (s : Member) : Bool :=
  ledger.all fun D => (!(D.members.any fun x => x == s)) || decide (shp < d - D.date)

/-- Eligibility of a sponsor pairing on date `d`, modelled from the spec:
the sponsor cooldown governs sponsor placements (the ordinary family cooldown
does not apply to them), the end-grace rule applies to both members of the
pairing, and a counterpart must exist. -/
def sponsorEligible (cfg : GenConfig) (roster : List Member) (ledger : List Day)
    (d : Nat) (s : Member) : Bool :=
  endGraceOk s d &&
    sponsorCooldownOk cfg.sponsor_holy_period_length ledger d s &&
    (match counterpartOf roster s with
     | none => false
     | some c => endGraceOk c d)

/-- Eligibility of an ordinary (non-forced) candidate on date `d`, modelled
from the spec: end-grace rule, family cooldown against the committed ledger,
and family exclusion against the members already in the day being filled. -/
def ordinaryEligible (cfg : GenConfig) (ledger : List Day) (d : Nat)
    (sameDay : List Member) (m : Member) : Bool :=
  endGraceOk m d &&
    !familyInHolyPeriod cfg.holy_period_length ledger d m.family &&
    !(sameDay.any fun x => x.family == m.family)

/-- Remove the first pool entry satisfying `p`, returning it together with
the remaining pool. -/
def extractFirst (p : Member → Bool) : List Member → Option (Member × List Member)
  | [] => none
  | x :: xs =>
      if p x then some (x, xs)
      else
        match extractFirst p xs with
        | none => none
        | some (y, ys) => some (y, x :: ys)

/-- First slot of a day, modelled from the spec's ordering priority: an
eligible sponsor is drawn from the pool ahead of any non-sponsor candidate. -/
def pickSlotOne (cfg : GenConfig) (roster : List Member) (ledger : List Day)
    (d : Nat) (pot : List Member) : Option (Member × List Member) :=
  match extractFirst (fun m => m.is_sponsor && sponsorEligible cfg roster ledger d m) pot with
  | some r => some r
  | none => extractFirst (fun m => !m.is_sponsor && ordinaryEligible cfg ledger d [] m) pot

/-- One generation attempt's day-filling loop, modelled from the spec.
Each eligible date opens a day of capacity 2.  A sponsor drawn first forces
the co-placement of their counterpart (taken from the pool when present
there, placed regardless otherwise).  A day that cannot reach capacity while
the pool still holds entries is a deadlock (`none`); when the pool empties
mid-day the partial day is discarded and the ledger so far is the result. -/
def fillDays (cfg : GenConfig) (roster : List Member) :
    List Nat → List Day → List Member → Option (List Day)
  | _, ledger, [] => some ledger
  | [], _, _ :: _ => none
  | d :: ds, ledger, x :: xs =>
      match pickSlotOne cfg roster ledger d (x :: xs) with
      | none => none
      | some (m1, pot1) =>
          if m1.is_sponsor then
            match counterpartOf roster m1 with
            | none => none
            | some c => fillDays cfg roster ds (ledger ++ [⟨d, [m1, c]⟩]) (pot1.erase c)
          else
            match pot1 with
            | [] => some ledger
            | y :: ys =>
                match extractFirst
                    (fun m => !m.is_sponsor && ordinaryEligible cfg ledger d [m1] m)
                    (y :: ys) with
                | none => none
                | some (m2, pot2) => fillDays cfg roster ds (ledger ++ [⟨d, [m1, m2]⟩]) pot2

/-- A single generation attempt over a shuffled pool order. -/
def runAttempt (cfg : GenConfig) (roster : List Member) (dates : List Nat)
    (potOrder : List Member) : Option (List Day) :=
  fillDays cfg roster dates [] potOrder

/-- The terminal error raised when the retry limit is exhausted. -/
inductive GenError where
  | notPossibleToGenerateSos
deriving DecidableEq, Repr

/-- The fixed retry limit. -/
def retryLimit : Nat := 1000

/-- Retry loop, modelled from the spec: up to the retry limit, each attempt
gets a fresh shuffle (attempt `i` uses pool order `shuffles i`); a deadlocked
attempt increments the retry counter and restarts; exhausting the limit
raises the terminal error with the counter at the limit. -/
def generateLoop (cfg : GenConfig) (roster : List Member) (dates : List Nat)
    (shuffles : Nat → List Member) :
    Nat → Nat → Except GenError (List Day) × Nat
  | 0, done => (Except.error GenError.notPossibleToGenerateSos, done)
  | fuel + 1, done =>
      match runAttempt cfg roster dates (shuffles done) with
      | some ledger => (Except.ok ledger, done + 1)
      | none => generateLoop cfg roster dates shuffles fuel (done + 1)

/-- `Generator.generate`, modelled from the spec.  The process-wide random
shuffle source is abstracted as the injected `shuffles` sequence of pool
orders; the calendar provider is the explicit `dates` list.  The second
component of the result is `number_of_retries_done`. -/
def generate (cfg : GenConfig) (roster : List Member) (dates : List Nat)
    (shuffles : Nat → List Member) : Except GenError (List Day) × Nat :=
  generateLoop cfg roster dates shuffles retryLimit 0

theorem extractFirst_eq_none {p : Member → Bool} :
    ∀ {l : List Member}, extractFirst p l = none → ∀ x ∈ l, p x = false := by
  intro l
  induction l with
  | nil => intro _ x hx; cases hx
  | cons a as ih =>
      intro h x hx
      by_cases hpa : p a = true
      · simp [extractFirst, hpa] at h
      · rw [extractFirst, if_neg (by simp [hpa])] at h
        cases he : extractFirst p as with
        | none =>
            rcases List.mem_cons.mp hx with rfl | hx'
            · simpa using hpa
            · exact ih he x hx'
        | some r => rw [he] at h; cases h

theorem extractFirst_spec {p : Member → Bool} :
    ∀ {l l' : List Member} {y : Member}, extractFirst p l = some (y, l') →
      p y = true ∧ l.Perm (y :: l') := by
  intro l
  induction l with
  | nil => intro l' y h; cases h
  | cons a as ih =>
      intro l' y h
      by_cases hpa : p a = true
      · rw [extractFirst, if_pos hpa] at h
        cases h
        exact ⟨hpa, List.Perm.refl _⟩
      · rw [extractFirst, if_neg (by simp [hpa])] at h
        cases he : extractFirst p as with
        | none => rw [he] at h; cases h
        | some r =>
            rcases r with ⟨z, zs⟩
            rw [he] at h
            cases h
            rcases ih he with ⟨hpz, hperm⟩
            refine ⟨hpz, ?_⟩
            exact (hperm.cons a).trans (List.Perm.swap _ _ _)

theorem extractFirst_of_mem {p : Member → Bool} :
    ∀ {l : List Member} {x : Member}, x ∈ l → p x = true →
      ∃ y l', extractFirst p l = some (y, l') := by
  intro l
  induction l with
  | nil => intro x hx; cases hx
  | cons a as ih =>
      intro x hx hpx
      by_cases hpa : p a = true
      · exact ⟨a, as, by rw [extractFirst, if_pos hpa]⟩
      · rcases List.mem_cons.mp hx with rfl | hx'
        · exact absurd hpx hpa
        · rcases ih hx' hpx with ⟨y, l', he⟩
          exact ⟨y, a :: l', by rw [extractFirst, if_neg (by simp [hpa]), he]⟩


theorem and_parts {a b : Bool} (h : (a && b) = true) : a = true ∧ b = true := by
  simp only [Bool.and_eq_true] at h
  exact h

theorem not_part {a : Bool} (h : (!a) = true) : a = false := by
  cases a
  · rfl
  · cases h

theorem endGraceOk_lt {m : Member} {d : Nat} (h : endGraceOk m d = true) :
    ∀ e, m.end_date = some e → d < e := by
  intro e he
  rw [endGraceOk, he] at h
  exact of_decide_eq_true h

theorem pickSlotOne_spec {cfg : GenConfig} {roster : List Member} {ledger : List Day}
    {d : Nat} {pot pot1 : List Member} {m1 : Member}
    (h : pickSlotOne cfg roster ledger d pot = some (m1, pot1)) :
    pot.Perm (m1 :: pot1) ∧
      ((m1.is_sponsor = true ∧ sponsorEligible cfg roster ledger d m1 = true) ∨
       (m1.is_sponsor = false ∧ ordinaryEligible cfg ledger d [] m1 = true)) := by
  rw [pickSlotOne] at h
  cases he : extractFirst (fun m => m.is_sponsor && sponsorEligible cfg roster ledger d m) pot with
  | some r =>
      rw [he] at h
      cases h
      rcases extractFirst_spec he with ⟨hp, hperm⟩
      rcases and_parts hp with ⟨h1, h2⟩
      exact ⟨hperm, Or.inl ⟨h1, h2⟩⟩
  | none =>
      rw [he] at h
      rcases extractFirst_spec h with ⟨hp, hperm⟩
      rcases and_parts hp with ⟨h1, h2⟩
      exact ⟨hperm, Or.inr ⟨not_part h1, h2⟩⟩

/-- Shape of every day a successful attempt appends: capacity exactly 2, the
end-grace rule respected by both placements, and either a sponsor-free day or
a sponsor drawn from the pool together with their looked-up counterpart. -/
def okDay (roster pot0 : List Member) (D : Day) : Prop :=
  D.members.length = 2 ∧
  (∀ m ∈ D.members, ∀ e, m.end_date = some e → D.date < e) ∧
  ((∀ m ∈ D.members, m.is_sponsor = false) ∨
    ∃ s c, D.members = [s, c] ∧ s.is_sponsor = true ∧ s ∈ pot0 ∧
      counterpartOf roster s = some c)

theorem sponsorEligible_endGrace {cfg : GenConfig} {roster : List Member}
    {ledger : List Day} {d : Nat} {s c : Member}
    (h : sponsorEligible cfg roster ledger d s = true)
    (hc : counterpartOf roster s = some c) :
    endGraceOk s d = true ∧ endGraceOk c d = true := by
  rw [sponsorEligible, hc] at h
  rcases and_parts h with ⟨h1, h3⟩
  rcases and_parts h1 with ⟨h1a, _⟩
  exact ⟨h1a, h3⟩

theorem ordinaryEligible_parts {cfg : GenConfig} {ledger : List Day} {d : Nat}
    {sameDay : List Member} {m : Member}
    (h : ordinaryEligible cfg ledger d sameDay m = true) :
    endGraceOk m d = true ∧
      familyInHolyPeriod cfg.holy_period_length ledger d m.family = false ∧
      (sameDay.any fun x => x.family == m.family) = false := by
  rw [ordinaryEligible] at h
  rcases and_parts h with ⟨h1, h3⟩
  rcases and_parts h1 with ⟨h1a, h2⟩
  exact ⟨h1a, not_part h2, not_part h3⟩

theorem fillDays_okDays (cfg : GenConfig) (roster pot0 : List Member) :
    ∀ (dates : List Nat) (ledger : List Day) (pot : List Member),
      (∀ m ∈ pot, m ∈ pot0) →
      ∀ L, fillDays cfg roster dates ledger pot = some L →
        ∃ suf, L = ledger ++ suf ∧ ∀ D ∈ suf, okDay roster pot0 D := by
  intro dates
  induction dates with
  | nil =>
      intro ledger pot hsub L hL
      cases pot with
      | nil =>
          rw [fillDays] at hL
          cases hL
          exact ⟨[], by simp, by simp⟩
      | cons x xs => rw [fillDays] at hL; cases hL
  | cons d ds ih =>
      intro ledger pot hsub L hL
      cases pot with
      | nil =>
          rw [fillDays] at hL
          cases hL
          exact ⟨[], by simp, by simp⟩
      | cons x xs =>
          rw [fillDays] at hL
          split at hL
          · cases hL
          · rename_i m1 pot1 hpick
            rcases pickSlotOne_spec hpick with ⟨hperm, hcases⟩
            have hmem1 : m1 ∈ pot0 := hsub m1 (hperm.mem_iff.mpr (by simp))
            have hsub1 : ∀ m ∈ pot1, m ∈ pot0 := fun m hm =>
              hsub m (hperm.mem_iff.mpr (by simp [hm]))
            split at hL
            · rename_i hs
              split at hL
              · cases hL
              · rename_i c hcp
                have heg : endGraceOk m1 d = true ∧ endGraceOk c d = true := by
                  rcases hcases with ⟨_, he⟩ | ⟨hfalse, _⟩
                  · exact sponsorEligible_endGrace he hcp
                  · rw [hs] at hfalse; cases hfalse
                have hsub2 : ∀ m ∈ pot1.erase c, m ∈ pot0 := fun m hm =>
                  hsub1 m (List.mem_of_mem_erase hm)
                rcases ih (ledger ++ [⟨d, [m1, c]⟩]) (pot1.erase c) hsub2 L hL with
                  ⟨suf, hLsuf, hok⟩
                refine ⟨⟨d, [m1, c]⟩ :: suf, by simpa using hLsuf, ?_⟩
                intro D hD
                rcases List.mem_cons.mp hD with rfl | hD'
                · refine ⟨rfl, ?_, Or.inr ⟨m1, c, rfl, hs, hmem1, hcp⟩⟩
                  intro m hm e he
                  rcases List.mem_cons.mp hm with rfl | hm'
                  · exact endGraceOk_lt heg.1 e he
                  · rcases List.mem_cons.mp hm' with rfl | hnil
                    · exact endGraceOk_lt heg.2 e he
                    · cases hnil
                · exact hok D hD'
            · rename_i hsneg
              have hs : m1.is_sponsor = false := by
                revert hsneg
                cases m1.is_sponsor <;> simp
              have heo : ordinaryEligible cfg ledger d [] m1 = true := by
                rcases hcases with ⟨htrue, _⟩ | ⟨_, he⟩
                · rw [hs] at htrue; cases htrue
                · exact he
              split at hL
              · cases hL
                exact ⟨[], by simp, by simp⟩
              · rename_i y ys
                split at hL
                · cases hL
                · rename_i r2 m2 pot2 hex2
                  rcases extractFirst_spec hex2 with ⟨hp2, hperm2⟩
                  rcases and_parts hp2 with ⟨hns2, helig2⟩
                  have hsub3 : ∀ m ∈ pot2, m ∈ pot0 := fun m hm =>
                    hsub1 m (hperm2.mem_iff.mpr (by simp [hm]))
                  rcases ih (ledger ++ [⟨d, [m1, m2]⟩]) pot2 hsub3 L hL with
                    ⟨suf, hLsuf, hok⟩
                  refine ⟨⟨d, [m1, m2]⟩ :: suf, by simpa using hLsuf, ?_⟩
                  intro D hD
                  rcases List.mem_cons.mp hD with rfl | hD'
                  · have heg1 := (ordinaryEligible_parts heo).1
                    have heg2 := (ordinaryEligible_parts helig2).1
                    refine ⟨rfl, ?_, Or.inl ?_⟩
                    · intro m hm e he
                      rcases List.mem_cons.mp hm with rfl | hm'
                      · exact endGraceOk_lt heg1 e he
                      · rcases List.mem_cons.mp hm' with rfl | hnil
                        · exact endGraceOk_lt heg2 e he
                        · cases hnil
                    · intro m hm
                      rcases List.mem_cons.mp hm with rfl | hm'
                      · exact hs
                      · rcases List.mem_cons.mp hm' with rfl | hnil
                        · exact not_part hns2
                        · cases hnil
                  · exact hok D hD'

theorem generateLoop_ok {cfg : GenConfig} {roster : List Member} {dates : List Nat}
    {shuffles : Nat → List Member} :
    ∀ (fuel done : Nat) (L : List Day) (n : Nat),
      generateLoop cfg roster dates shuffles fuel done = (Except.ok L, n) →
      ∃ i, runAttempt cfg roster dates (shuffles i) = some L := by
  intro fuel
  induction fuel with
  | zero =>
      intro done L n h
      rw [generateLoop] at h
      simp at h
  | succ fuel ih =>
      intro done L n h
      rw [generateLoop] at h
      cases hA : runAttempt cfg roster dates (shuffles done) with
      | some ledger =>
          rw [hA] at h
          cases h
          exact ⟨done, hA⟩
      | none =>
          rw [hA] at h
          exact ih _ _ _ h

theorem generateLoop_all_fail {cfg : GenConfig} {roster : List Member} {dates : List Nat}
    {shuffles : Nat → List Member}
    (h : ∀ i, runAttempt cfg roster dates (shuffles i) = none) :
    ∀ fuel done, generateLoop cfg roster dates shuffles fuel done
      = (Except.error GenError.notPossibleToGenerateSos, done + fuel) := by
  intro fuel
  induction fuel with
  | zero => intro done; rw [generateLoop, Nat.add_zero]
  | succ fuel ih =>
      intro done
      rw [generateLoop]
      simp only [h done]
      rw [ih (done + 1)]
      have harith : done + 1 + fuel = done + (fuel + 1) := by omega
      rw [harith]

theorem and_intro_bool {a b : Bool} (ha : a = true) (hb : b = true) : (a && b) = true := by
  rw [ha, hb]
  rfl

/-- C1: building the slot pool creates exactly `round(proportion / 50)` pool
entries referencing each member (counted with the member's multiplicity in
the roster); in particular proportion 100 yields 2 entries per occurrence,
proportion 50 yields 1, and proportion 0 yields 0. -/
theorem c1_pot_quota :
    (∀ (roster : List Member) (m : Member),
        (populate_pot roster).count m = roster.count m * sosRound m.proportion) ∧
    (∀ (roster : List Member) (m : Member), roster.count m = 1 →
        ((m.proportion = 100 → (populate_pot roster).count m = 2) ∧
         (m.proportion = 50 → (populate_pot roster).count m = 1) ∧
         (m.proportion = 0 → (populate_pot roster).count m = 0))) := by
  refine ⟨count_populate_pot, ?_⟩
  intro roster m h1
  refine ⟨?_, ?_, ?_⟩ <;> intro hp <;>
    rw [count_populate_pot, h1, hp, Nat.one_mul] <;> decide

/-- C1 witness: a one-member roster with proportion 100 produces exactly two
pool entries for that member. -/
theorem c1_pot_quota_witness :
    (populate_pot [({} : Member)]).count ({} : Member) = 2 :=
  (c1_pot_quota.2 [({} : Member)] ({} : Member) (by decide)).1 rfl

/-- C8 counterexample: the derived name is not the bare concatenation of
first and last name — member.py inserts a space between them. -/
theorem c8_name_counterexample :
    ({ first_name := "Anna", last_name := "Berg" } : Member).name ≠ "Anna" ++ "Berg" := by
  decide

/-- C8 amended: for every Member, the derived name equals the first name,
a single space, then the last name. -/
theorem c8_name_amended (m : Member) :
    m.name = m.first_name ++ " " ++ m.last_name := rfl

/-- C9: a Member can be constructed with optional `end_date` and
`sponsored_by_family` attributes alongside the five member.py attributes,
and the construction stores each given value on the instance. -/
theorem c9_member_attributes (fn ln : String) (p f : Nat) (sff ed sbf : Option Nat) :
    (Member.mk fn ln p f sff ed sbf).first_name = fn ∧
    (Member.mk fn ln p f sff ed sbf).last_name = ln ∧
    (Member.mk fn ln p f sff ed sbf).proportion = p ∧
    (Member.mk fn ln p f sff ed sbf).family = f ∧
    (Member.mk fn ln p f sff ed sbf).sponsor_for_family = sff ∧
    (Member.mk fn ln p f sff ed sbf).end_date = ed ∧
    (Member.mk fn ln p f sff ed sbf).sponsored_by_family = sbf :=
  ⟨rfl, rfl, rfl, rfl, rfl, rfl, rfl⟩

/-- C10: constructor defaults — empty names (so the derived name is a single
space), proportion 100, family 0, no sponsored family (so `is_sponsor` is
false); and `is_sponsor` is true for any set `sponsor_for_family`,
including 0. -/
theorem c10_member_defaults :
    ({} : Member).first_name = "" ∧
    ({} : Member).last_name = "" ∧
    ({} : Member).proportion = 100 ∧
    ({} : Member).family = 0 ∧
    ({} : Member).sponsor_for_family = none ∧
    ({} : Member).name = " " ∧
    ({} : Member).is_sponsor = false ∧
    (∀ v : Nat, ({ sponsor_for_family := some v } : Member).is_sponsor = true) ∧
    ({ sponsor_for_family := some 0 } : Member).is_sponsor = true :=
  ⟨rfl, rfl, rfl, rfl, rfl, rfl, rfl, fun _ => rfl, rfl⟩

/-- C4: once two members of family F occupy two distinct days, a non-forced
placement attempt of a third family-F member on any date within the holy
period of either day reports the family as in its holy period, returns
false, and leaves the ledger unchanged. -/
theorem c4_family_cooldown (cfg : GenConfig) (ledger : List Day) (D1 D2 : Day)
    (c : Member) (d : Nat)
    (h1 : D1 ∈ ledger) (h2 : D2 ∈ ledger) (hdist : D1.date ≠ D2.date)
    (hm1 : ∃ m1 ∈ D1.members, m1.family = c.family)
    (hm2 : ∃ m2 ∈ D2.members, m2.family = c.family)
    (hclose : datesWithin d D1.date cfg.holy_period_length = true ∨
              datesWithin d D2.date cfg.holy_period_length = true) :
    is_members_family_in_holy_period cfg ledger d c = true ∧
      append_member cfg ledger d c = (false, ledger) := by
  have hin : familyInHolyPeriod cfg.holy_period_length ledger d c.family = true := by
    rw [familyInHolyPeriod, List.any_eq_true]
    rcases hclose with hc | hc
    · rcases hm1 with ⟨m1, hm1m, hf⟩
      exact ⟨D1, h1, and_intro_bool hc (List.any_eq_true.mpr ⟨m1, hm1m, by simp [hf]⟩)⟩
    · rcases hm2 with ⟨m2, hm2m, hf⟩
      exact ⟨D2, h2, and_intro_bool hc (List.any_eq_true.mpr ⟨m2, hm2m, by simp [hf]⟩)⟩
  refine ⟨hin, ?_⟩
  rw [append_member, is_members_family_in_holy_period, hin]
  simp

/-- Concrete fixtures for the C4 witness. -/
def c4mA : Member := { first_name := "a", family := 7 }

def c4mB : Member := { first_name := "b", family := 7 }

def c4mC : Member := { first_name := "c", family := 7 }

def c4ledger : List Day := [⟨0, [c4mA]⟩, ⟨4, [c4mB]⟩]

/-- C4 witness: two family-7 members on days 0 and 4 block a third family-7
member on day 2 under a holy period of length 2. -/
theorem c4_family_cooldown_witness :
    is_members_family_in_holy_period ⟨2, 0⟩ c4ledger 2 c4mC = true ∧
    append_member ⟨2, 0⟩ c4ledger 2 c4mC = (false, c4ledger) :=
  c4_family_cooldown ⟨2, 0⟩ c4ledger ⟨0, [c4mA]⟩ ⟨4, [c4mB]⟩ c4mC 2
    (by decide) (by decide) (by decide)
    ⟨c4mA, by decide, by decide⟩ ⟨c4mB, by decide, by decide⟩ (Or.inl (by decide))

theorem extractFirst_none_of {p : Member → Bool} :
    ∀ {l : List Member}, (∀ x ∈ l, p x = false) → extractFirst p l = none := by
  intro l
  induction l with
  | nil => intro _; rfl
  | cons a as ih =>
      intro h
      rw [extractFirst, if_neg (by simp [h a (by simp)]),
        ih (fun x hx => h x (by simp [hx]))]

theorem deadlock_fillDays (cfg : GenConfig) (roster : List Member) (F : Nat) :
    ∀ (dates : List Nat) (pot : List Member),
      2 ≤ pot.length →
      (∀ m ∈ pot, m.family = F ∧ m.is_sponsor = false) →
      fillDays cfg roster dates [] pot = none := by
  intro dates pot hlen hall
  cases pot with
  | nil => simp at hlen
  | cons x xs =>
      cases dates with
      | nil => rw [fillDays]
      | cons d ds =>
          rw [fillDays]
          cases hpick : pickSlotOne cfg roster [] d (x :: xs) with
          | none => simp only [hpick]
          | some r =>
              rcases r with ⟨m1, pot1⟩
              simp only [hpick]
              rcases pickSlotOne_spec hpick with ⟨hperm, _⟩
              have hm1 : m1 ∈ x :: xs := hperm.mem_iff.mpr (by simp)
              have hm1f := hall m1 hm1
              rw [if_neg (by simp [hm1f.2])]
              have hlen1 : 1 ≤ pot1.length := by
                have hl := hperm.length_eq
                simp only [List.length_cons] at hl hlen
                omega
              cases hp1 : pot1 with
              | nil => rw [hp1] at hlen1; simp at hlen1
              | cons y ys =>
                  have hnone : extractFirst
                      (fun m => !m.is_sponsor && ordinaryEligible cfg [] d [m1] m)
                      (y :: ys) = none := by
                    apply extractFirst_none_of
                    intro z hz
                    have hzmem : z ∈ x :: xs := by
                      have hzp : z ∈ m1 :: pot1 := by rw [hp1]; simp [hz]
                      exact hperm.mem_iff.mpr hzp
                    have hzf := (hall z hzmem).1
                    have hday : ([m1].any fun w => w.family == z.family) = true := by
                      simp [hm1f.1, hzf]
                    simp [ordinaryEligible, hday]
                  simp only [hnone]

/-- C3: a roster of exactly two same-family, non-sponsor members whose pool
holds at least two entries can never fill a day, so every attempt deadlocks:
`generate` raises the terminal not-possible-to-generate error and the retry
counter ends at exactly 1000. -/
theorem c3_retry_exhaustion (cfg : GenConfig) (a b : Member) (dates : List Nat)
    (shuffles : Nat → List Member)
    (hfam : a.family = b.family)
    (hsa : a.is_sponsor = false) (hsb : b.is_sponsor = false)
    (hsize : 2 ≤ (populate_pot [a, b]).length)
    (hsh : ∀ i, (shuffles i).Perm (populate_pot [a, b])) :
    generate cfg [a, b] dates shuffles
      = (Except.error GenError.notPossibleToGenerateSos, 1000) := by
  have hall : ∀ i, runAttempt cfg [a, b] dates (shuffles i) = none := by
    intro i
    rw [runAttempt]
    apply deadlock_fillDays cfg [a, b] b.family dates
    · rw [(hsh i).length_eq]; exact hsize
    · intro m hm
      have hmp : m ∈ populate_pot [a, b] := (hsh i).mem_iff.mp hm
      have hm2 : m ∈ [a, b] := mem_populate_pot hmp
      rcases List.mem_cons.mp hm2 with rfl | h'
      · exact ⟨hfam, hsa⟩
      · rcases List.mem_cons.mp h' with rfl | h''
        · exact ⟨rfl, hsb⟩
        · cases h''
  rw [generate, generateLoop_all_fail hall retryLimit 0]
  rfl

/-- Fixture for the C3 witness, mirroring the deadlock test roster. -/
def c3m : Member := { family := 1 }

/-- C3 witness: the two-member family-1 roster deadlocks on every attempt and
the error carries a retry count of exactly 1000. -/
theorem c3_retry_exhaustion_witness :
    generate {} [c3m, c3m] [0, 1, 2] (fun _ => populate_pot [c3m, c3m])
      = (Except.error GenError.notPossibleToGenerateSos, 1000) :=
  c3_retry_exhaustion {} c3m c3m [0, 1, 2] (fun _ => populate_pot [c3m, c3m])
    rfl rfl rfl (by decide) (fun _ => List.Perm.refl _)

theorem generateLoop_first_ok {cfg : GenConfig} {roster : List Member}
    {dates : List Nat} {shuffles : Nat → List Member} {L : List Day} {done : Nat}
    (h : runAttempt cfg roster dates (shuffles done) = some L) (fuel : Nat) :
    generateLoop cfg roster dates shuffles (fuel + 1) done = (Except.ok L, done + 1) := by
  rw [generateLoop, h]

/-- C5: every day of a successfully generated ledger holds exactly 2 members,
and a roster whose pool holds a single (placeable, non-sponsor) entry yields
the empty ledger — the trailing partial day is discarded, never returned. -/
theorem c5_full_days :
    (∀ (cfg : GenConfig) (roster : List Member) (dates : List Nat)
        (shuffles : Nat → List Member) (L : List Day) (n : Nat),
        generate cfg roster dates shuffles = (Except.ok L, n) →
        ∀ D ∈ L, D.members.length = 2) ∧
    (∀ (cfg : GenConfig) (roster : List Member) (m : Member) (dates : List Nat)
        (shuffles : Nat → List Member),
        populate_pot roster = [m] → m.is_sponsor = false → m.end_date = none →
        (∀ i, shuffles i = populate_pot roster) → dates ≠ [] →
        generate cfg roster dates shuffles = (Except.ok [], 1)) := by
  constructor
  · intro cfg roster dates shuffles L n hok D hD
    rw [generate] at hok
    rcases generateLoop_ok retryLimit 0 L n hok with ⟨i, hi⟩
    rw [runAttempt] at hi
    rcases fillDays_okDays cfg roster (shuffles i) dates [] (shuffles i)
      (fun w hw => hw) L hi with ⟨suf, hsuf, hokd⟩
    rw [hsuf, List.nil_append] at hD
    exact (hokd D hD).1
  · intro cfg roster m dates shuffles hpot hns hend hsh hne
    have hrun : runAttempt cfg roster dates (shuffles 0) = some [] := by
      rw [runAttempt, hsh 0, hpot]
      cases dates with
      | nil => cases hne rfl
      | cons d ds =>
          rw [fillDays]
          have hpick : pickSlotOne cfg roster [] d [m] = some (m, []) := by
            have hsp : extractFirst
                (fun mm => mm.is_sponsor && sponsorEligible cfg roster [] d mm) [m]
                = none := by
              apply extractFirst_none_of
              intro x hx
              rcases List.mem_singleton.mp hx with rfl
              simp [hns]
            have hcond : (fun mm => !mm.is_sponsor && ordinaryEligible cfg [] d [] mm) m
                = true := by
              simp [hns, ordinaryEligible, endGraceOk, hend, familyInHolyPeriod]
            rw [pickSlotOne, hsp, extractFirst, if_pos hcond]
          simp only [hpick]
          rw [if_neg (by simp [hns])]
    rw [generate]
    exact generateLoop_first_ok hrun 999

/-- Fixtures for the C5 witness. -/
def c5m : Member := { first_name := "solo", proportion := 50, family := 3 }

def c5mA : Member := { first_name := "p", proportion := 50, family := 11 }

def c5mB : Member := { first_name := "q", proportion := 50, family := 12 }

/-- C5 witness: the single day of a concrete successful two-member generation
is full, and a single-entry pool yields the empty ledger. -/
theorem c5_full_days_witness :
    (Day.mk 0 [c5mA, c5mB]).members.length = 2 ∧
    generate {} [c5m] [0, 1] (fun _ => populate_pot [c5m]) = (Except.ok [], 1) :=
  ⟨c5_full_days.1 {} [c5mA, c5mB] [0] (fun _ => populate_pot [c5mA, c5mB])
      [Day.mk 0 [c5mA, c5mB]] 1 (by rfl) (Day.mk 0 [c5mA, c5mB]) (by decide),
   c5_full_days.2 {} [c5m] c5m [0, 1] (fun _ => populate_pot [c5m])
      (by decide) (by decide) (by decide) (fun _ => rfl) (by decide)⟩

/-- C7: a placement attempt on or after a member's `end_date` is rejected
without mutating the ledger, and no successfully generated ledger ever
contains a member on a day dated at or past their `end_date`. -/
theorem c7_end_grace :
    (∀ (cfg : GenConfig) (ledger : List Day) (d : Nat) (c : Member) (e : Nat),
        c.end_date = some e → e ≤ d →
        append_member cfg ledger d c = (false, ledger)) ∧
    (∀ (cfg : GenConfig) (roster : List Member) (dates : List Nat)
        (shuffles : Nat → List Member) (L : List Day) (n : Nat),
        generate cfg roster dates shuffles = (Except.ok L, n) →
        ∀ D ∈ L, ∀ m ∈ D.members, ∀ e, m.end_date = some e → D.date < e) := by
  constructor
  · intro cfg ledger d c e he hle
    have hg : endGraceOk c d = false := by
      rw [endGraceOk, he]
      simp
      omega
    rw [append_member, hg]
    simp
  · intro cfg roster dates shuffles L n hok D hD m hm e he
    rw [generate] at hok
    rcases generateLoop_ok retryLimit 0 L n hok with ⟨i, hi⟩
    rw [runAttempt] at hi
    rcases fillDays_okDays cfg roster (shuffles i) dates [] (shuffles i)
      (fun w hw => hw) L hi with ⟨suf, hsuf, hokd⟩
    rw [hsuf, List.nil_append] at hD
    exact (hokd D hD).2.1 m hm e he

/-- Fixtures for the C7 witness. -/
def c7mEnd : Member := { first_name := "leaver", family := 9, end_date := some 3 }

def c7mA : Member := { first_name := "r", proportion := 50, family := 21 }

def c7mB : Member := { first_name := "s", proportion := 50, family := 22 }

/-- A half-share member with end date 9 for the C7 witness run. -/
def c7mE : Member := { first_name := "stayer", proportion := 50, family := 9,
                       end_date := some 9 }

/-- C7 witness: a member with end date 3 is rejected on day 5 with the ledger
untouched, and in a concrete successful run the member with end date 9 was
placed only on a day dated before 9. -/
theorem c7_end_grace_witness :
    append_member {} [] 5 c7mEnd = (false, []) ∧
    (Day.mk 0 [c7mE, c7mB]).date < 9 :=
  ⟨c7_end_grace.1 {} [] 5 c7mEnd 3 (by rfl) (by decide),
   c7_end_grace.2 {} [c7mE, c7mB] [0] (fun _ => [c7mE, c7mB])
      [Day.mk 0 [c7mE, c7mB]] 1 (by rfl) (Day.mk 0 [c7mE, c7mB]) (by decide)
      c7mE (by decide) 9 (by rfl)⟩

/-- Sanity shape of a roster's sponsor links: no sponsor's looked-up
counterpart is itself a sponsor (the spec's sponsored members are plain
members of the sponsored family). -/
def sponsorsSane (roster : List Member) : Bool :=
  roster.all fun s =>
    !s.is_sponsor ||
      (match counterpartOf roster s with
       | none => true
       | some c => !c.is_sponsor)

/-- C2: in every successful generation (over shuffles of the built pool, on a
roster whose sponsored counterparts are not themselves sponsors), any day
containing a sponsor also contains a member of the sponsor's sponsored
family. -/
theorem c2_sponsor_pairing (cfg : GenConfig) (roster : List Member)
    (dates : List Nat) (shuffles : Nat → List Member) (L : List Day) (n : Nat)
    (hsane : sponsorsSane roster = true)
    (hsh : ∀ i, (shuffles i).Perm (populate_pot roster))
    (hok : generate cfg roster dates shuffles = (Except.ok L, n)) :
    ∀ D ∈ L, ∀ s ∈ D.members, s.is_sponsor = true →
      ∃ c ∈ D.members, s.sponsor_for_family = some c.family := by
  rw [generate] at hok
  rcases generateLoop_ok retryLimit 0 L n hok with ⟨i, hi⟩
  rw [runAttempt] at hi
  rcases fillDays_okDays cfg roster (shuffles i) dates [] (shuffles i)
    (fun w hw => hw) L hi with ⟨suf, hsuf, hokd⟩
  intro D hD s hsD hspon
  have hD' : D ∈ suf := by rwa [hsuf, List.nil_append] at hD
  rcases hokd D hD' with ⟨_, _, hshape⟩
  rcases hshape with hnos | ⟨s', c, hmem, hs', hpot, hcp⟩
  · rw [hnos s hsD] at hspon; cases hspon
  · have hsroster : s' ∈ roster := mem_populate_pot ((hsh i).mem_iff.mp hpot)
    have hcp' := hcp
    rw [counterpartOf] at hcp'
    cases hsff : s'.sponsor_for_family with
    | none => rw [hsff] at hcp'; cases hcp'
    | some f =>
        rw [hsff] at hcp'
        have hpc := List.find?_some hcp'
        have hcf : c.family = f := by simpa [beq_iff_eq] using hpc
        have hcns : c.is_sponsor = false := by
          have hsane' := hsane
          rw [sponsorsSane, List.all_eq_true] at hsane'
          have h2 := hsane' s' hsroster
          rw [hcp] at h2
          revert h2
          simp [hs']
        rw [hmem] at hsD
        rcases List.mem_cons.mp hsD with rfl | htail
        · refine ⟨c, by rw [hmem]; simp, ?_⟩
          rw [hsff, hcf]
        · rcases List.mem_cons.mp htail with rfl | hnil
          · exact absurd hspon (by simp [hcns])
          · cases hnil

/-- Fixtures for the C2 witness: a sponsor of family 200 with a sponsored
family-200 member and two ordinary members. -/
def c2S : Member := { first_name := "S", proportion := 50, family := 100,
                      sponsor_for_family := some 200 }

def c2T : Member := { first_name := "T", proportion := 50, family := 200 }

def c2A : Member := { first_name := "A", proportion := 50, family := 1 }

def c2B : Member := { first_name := "B", proportion := 50, family := 2 }

/-- C2 witness: in the concrete run the sponsor lands on day 0 and that day
also holds a member of the sponsored family. -/
theorem c2_sponsor_pairing_witness :
    ∃ c ∈ (Day.mk 0 [c2S, c2T]).members, c2S.sponsor_for_family = some c.family :=
  c2_sponsor_pairing ⟨1, 0⟩ [c2S, c2T, c2A, c2B] [0, 1]
    (fun _ => populate_pot [c2S, c2T, c2A, c2B])
    [Day.mk 0 [c2S, c2T], Day.mk 1 [c2A, c2B]] 1
    (by decide) (fun _ => List.Perm.refl _) (by rfl)
    (Day.mk 0 [c2S, c2T]) (by decide) c2S (by decide) (by decide)

/-- The sponsor member of the C6 sponsor-cooldown scenario: proportion 100,
own family 100, sponsoring family 200. -/
def c6sponsor : Member :=
  { first_name := "sponsor", proportion := 100, family := 100,
    sponsor_for_family := some 200 }

/-- The sponsored member of the C6 scenario: proportion 100, family 200. -/
def c6sponsored : Member :=
  { first_name := "sponsored", proportion := 100, family := 200,
    sponsored_by_family := some 100 }

/-- Consecutive calendar dates `t, t+1, ..., t+n-1`. -/
def dateSeq : Nat → Nat → List Nat
  | _, 0 => []
  | t, n + 1 => t :: dateSeq (t + 1) n

theorem dateSeq_append : ∀ (a t b : Nat),
    dateSeq t (a + b) = dateSeq t a ++ dateSeq (t + a) b := by
  intro a
  induction a with
  | zero =>
      intro t b
      simp [dateSeq, Nat.zero_add, Nat.add_zero]
  | succ a ih =>
      intro t b
      have h : a + 1 + b = (a + b) + 1 := by omega
      rw [h, dateSeq, dateSeq, ih (t + 1) b]
      have h2 : t + 1 + a = t + (a + 1) := by omega
      rw [h2, List.cons_append]

/-- A pool entry that is neither the C6 sponsor nor the C6 sponsored member. -/
def isOrdB (m : Member) : Bool := !(m == c6sponsor) && !(m == c6sponsored)

/-- The ordinary part of a pool in the C6 scenario. -/
def ordPart (l : List Member) : List Member := l.filter isOrdB

theorem filter_erase_not {p : Member → Bool} {a : Member} (ha : p a = false) :
    ∀ l : List Member, (l.erase a).filter p = l.filter p := by
  intro l
  induction l with
  | nil => rfl
  | cons x xs ih =>
      rw [List.erase_cons]
      by_cases hxa : x = a
      · subst hxa
        simp [List.filter_cons, ha]
      · have hbeq : (x == a) = false := by simp [beq_iff_eq, hxa]
        rw [if_neg (by simp [hbeq])]
        simp [List.filter_cons, ih]

theorem c6_counterpart (ords : List Member)
    (h : ∀ o ∈ ords, o.family ≠ 200) :
    counterpartOf (ords ++ [c6sponsor, c6sponsored]) c6sponsor = some c6sponsored := by
  show (ords ++ [c6sponsor, c6sponsored]).find? (fun m => m.family == 200)
      = some c6sponsored
  induction ords with
  | nil => rfl
  | cons o os ih =>
      have hf : (o.family == 200) = false := by
        simp [beq_iff_eq]
        exact h o (by simp)
      rw [List.cons_append, List.find?_cons, hf]
      exact ih (fun x hx => h x (by simp [hx]))

/-- The symmetric family-distinctness relation the C6 pool satisfies. -/
def famR (a b : Member) : Prop :=
  a = c6sponsor ∨ b = c6sponsor ∨ a = c6sponsored ∨ b = c6sponsored ∨
    a.family ≠ b.family

theorem famR_symm : Symmetric famR := by
  intro a b h
  rcases h with h | h | h | h | h
  · exact Or.inr (Or.inl h)
  · exact Or.inl h
  · exact Or.inr (Or.inr (Or.inr (Or.inl h)))
  · exact Or.inr (Or.inr (Or.inl h))
  · exact Or.inr (Or.inr (Or.inr (Or.inr (fun hh => h hh.symm))))

theorem famhp_false {hp : Nat} {ledger : List Day} {d fam : Nat}
    (h : ∀ D ∈ ledger, ∀ x ∈ D.members, x.family ≠ fam) :
    familyInHolyPeriod hp ledger d fam = false := by
  rw [familyInHolyPeriod]
  rw [List.any_eq_false]
  intro D hD
  have hmem : (D.members.any fun x => x.family == fam) = false := by
    rw [List.any_eq_false]
    intro x hx
    simp [beq_iff_eq]
    exact h D hD x hx
  simp [hmem]

theorem subperm_of_perm_cons {a : Member} {l l' : List Member}
    (h : l.Perm (a :: l')) : l'.Subperm l :=
  (((List.Sublist.refl l').cons a).subperm).trans h.symm.subperm

theorem pairwise_of_subperm {l l' : List Member}
    (hsub : l'.Subperm l) (hp : l.Pairwise famR) : l'.Pairwise famR := by
  rcases hsub with ⟨u, hu, hsl⟩
  exact ((List.Perm.pairwise_iff (fun hxy => famR_symm hxy) hu).mp (hp.sublist hsl))

theorem isOrdB_ne {x : Member} (h : isOrdB x = true) :
    x ≠ c6sponsor ∧ x ≠ c6sponsored := by
  rcases and_parts h with ⟨h1, h2⟩
  have h1' := not_part h1
  have h2' := not_part h2
  constructor
  · intro he
    rw [he] at h1'
    simp at h1'
  · intro he
    rw [he] at h2'
    simp at h2'

theorem isOrdB_of_ord {x : Member} (h100 : x.family ≠ 100) (h200 : x.family ≠ 200) :
    isOrdB x = true := by
  have h1 : (x == c6sponsor) = false := by
    simp [beq_iff_eq]
    intro he
    exact absurd (by rw [he]; rfl : x.family = 100) h100
  have h2 : (x == c6sponsored) = false := by
    simp [beq_iff_eq]
    intro he
    exact absurd (by rw [he]; rfl : x.family = 200) h200
  rw [isOrdB, h1, h2]
  rfl

theorem famR_fam_ne {a b : Member} (hR : famR a b)
    (haS : a ≠ c6sponsor) (haT : a ≠ c6sponsored)
    (hbS : b ≠ c6sponsor) (hbT : b ≠ c6sponsored) :
    a.family ≠ b.family := by
  rcases hR with h | h | h | h | h
  · exact absurd h haS
  · exact absurd h hbS
  · exact absurd h haT
  · exact absurd h hbT
  · exact h

theorem count_le_of_perm_cons {a b : Member} {l l' : List Member}
    (h : l.Perm (b :: l')) : l'.count a ≤ l.count a := by
  rw [h.count_eq a, List.count_cons]
  exact Nat.le_add_right _ _

theorem c6_sponsor_blocked {K t : Nat} (htK : t ≤ K) (tail : List Day) :
    sponsorCooldownOk K (⟨0, [c6sponsor, c6sponsored]⟩ :: tail) t c6sponsor = false := by
  simp [sponsorCooldownOk, List.all_cons]
  intro hlt
  exact absurd hlt (by omega)

theorem c6_sponsor_pred_false {K t : Nat} (htK : t ≤ K) (roster : List Member)
    (tail : List Day) {x : Member}
    (hx : x = c6sponsor ∨ x = c6sponsored ∨
      (x.is_sponsor = false ∧ x.end_date = none ∧ x.family ≠ 100 ∧ x.family ≠ 200)) :
    (x.is_sponsor && sponsorEligible ⟨1, K⟩ roster
      (⟨0, [c6sponsor, c6sponsored]⟩ :: tail) t x) = false := by
  rcases hx with rfl | rfl | hord
  · have hb := c6_sponsor_blocked htK tail (K := K) (t := t)
    rw [sponsorEligible]
    simp [hb]
  · rfl
  · simp [hord.1]

theorem c6_ord_pred_true {cfg : GenConfig} {ledger : List Day} {t : Nat} {x : Member}
    (hns : x.is_sponsor = false) (hend : x.end_date = none)
    (hdisj : ∀ D ∈ ledger, ∀ w ∈ D.members, w.family ≠ x.family) :
    ((!x.is_sponsor) && ordinaryEligible cfg ledger t [] x) = true := by
  rw [hns]
  simp [ordinaryEligible, endGraceOk, hend, famhp_false hdisj]

theorem c6_ord_pred2_true {cfg : GenConfig} {ledger : List Day} {t : Nat} {m1 x : Member}
    (hns : x.is_sponsor = false) (hend : x.end_date = none)
    (hdisj : ∀ D ∈ ledger, ∀ w ∈ D.members, w.family ≠ x.family)
    (hfam : m1.family ≠ x.family) :
    ((!x.is_sponsor) && ordinaryEligible cfg ledger t [m1] x) = true := by
  rw [hns]
  simp [ordinaryEligible, endGraceOk, hend, famhp_false hdisj, hfam]

/-- Loop invariant of the C6 scenario after the first `t` days: day 0 holds
the sponsor pairing, later days are sponsor-free, the pool is a sub-multiset
of the shuffled pool still holding exactly one sponsor entry and at most one
sponsored entry, pool families are disjoint from placed families, and enough
ordinary entries remain. -/
structure C6Inv (K : Nat) (P : List Member) (t : Nat) (ledger : List Day)
    (pot : List Member) : Prop where
  hlen : ledger.length = t
  hhead : ∃ tail, ledger = ⟨0, [c6sponsor, c6sponsored]⟩ :: tail ∧
      ∀ D ∈ tail, ∀ m ∈ D.members, m.is_sponsor = false
  hsub : pot.Subperm P
  hcS : pot.count c6sponsor = 1
  hcT : pot.count c6sponsored ≤ 1
  hdisj : ∀ m ∈ pot, isOrdB m = true →
      ∀ D ∈ ledger, ∀ x ∈ D.members, x.family ≠ m.family
  hsupply : 2 * K + 2 ≤ (ordPart pot).length + 2 * (t - 1)

theorem c6_step {K : Nat} (ords : List Member) {P : List Member}
    (hPmem : ∀ m ∈ P, m = c6sponsor ∨ m = c6sponsored ∨
        (m.is_sponsor = false ∧ m.end_date = none ∧ m.family ≠ 100 ∧ m.family ≠ 200))
    (hPpair : P.Pairwise famR)
    {t : Nat} (h1t : 1 ≤ t) (htK : t ≤ K)
    {ledger : List Day} {pot : List Member}
    (inv : C6Inv K P t ledger pot) (ds : List Nat) :
    ∃ m1 m2 pot2,
      fillDays ⟨1, K⟩ (ords ++ [c6sponsor, c6sponsored]) (t :: ds) ledger pot
        = fillDays ⟨1, K⟩ (ords ++ [c6sponsor, c6sponsored]) ds
            (ledger ++ [⟨t, [m1, m2]⟩]) pot2 ∧
      C6Inv K P (t + 1) (ledger ++ [⟨t, [m1, m2]⟩]) pot2 := by
  rcases inv.hhead with ⟨tail, hled, htail⟩
  have hclass : ∀ m ∈ pot, m = c6sponsor ∨ m = c6sponsored ∨
      (m.is_sponsor = false ∧ m.end_date = none ∧ m.family ≠ 100 ∧ m.family ≠ 200) :=
    fun m hm => hPmem m (inv.hsub.subset hm)
  have hpotpair : pot.Pairwise famR := pairwise_of_subperm inv.hsub hPpair
  have hspnone : extractFirst (fun m => m.is_sponsor &&
      sponsorEligible ⟨1, K⟩ (ords ++ [c6sponsor, c6sponsored]) ledger t m) pot = none := by
    apply extractFirst_none_of
    intro x hx
    rw [hled]
    exact c6_sponsor_pred_false htK _ tail (hclass x hx)
  have hsupply := inv.hsupply
  have hordlen : 4 ≤ (ordPart pot).length := by omega
  obtain ⟨x0, hx0⟩ : ∃ x, x ∈ ordPart pot := by
    cases ho : ordPart pot with
    | nil => rw [ho] at hordlen; simp at hordlen
    | cons a as => exact ⟨a, by simp⟩
  rcases List.mem_filter.mp hx0 with ⟨hx0pot, hx0ord⟩
  rcases isOrdB_ne hx0ord with ⟨hx0S, hx0T⟩
  have hx0props : x0.is_sponsor = false ∧ x0.end_date = none ∧
      x0.family ≠ 100 ∧ x0.family ≠ 200 := by
    rcases hclass x0 hx0pot with rfl | rfl | h
    · exact absurd rfl hx0S
    · exact absurd rfl hx0T
    · exact h
  have hx0pred : ((!x0.is_sponsor) && ordinaryEligible ⟨1, K⟩ ledger t [] x0) = true :=
    c6_ord_pred_true hx0props.1 hx0props.2.1 (inv.hdisj x0 hx0pot hx0ord)
  obtain ⟨m1, pot1, hex1⟩ := extractFirst_of_mem
    (p := fun m => (!m.is_sponsor) && ordinaryEligible ⟨1, K⟩ ledger t [] m) hx0pot hx0pred
  rcases extractFirst_spec hex1 with ⟨hm1pred, hperm1⟩
  rcases and_parts hm1pred with ⟨hm1nsB, _⟩
  have hm1ns : m1.is_sponsor = false := not_part hm1nsB
  have hm1pot : m1 ∈ pot := hperm1.mem_iff.mpr (by simp)
  have hm1S : m1 ≠ c6sponsor := fun he => by
    rw [he] at hm1ns
    exact absurd hm1ns (by decide)
  have hpair1 : (m1 :: pot1).Pairwise famR :=
    (List.Perm.pairwise_iff (fun hxy => famR_symm hxy) hperm1).mp hpotpair
  have hm1fam : ∀ z ∈ pot1, isOrdB z = true → m1.family ≠ z.family := by
    intro z hz hzord
    rcases isOrdB_ne hzord with ⟨hzS, hzT⟩
    have hzpot : z ∈ pot := hperm1.mem_iff.mpr (by simp [hz])
    rcases hclass m1 hm1pot with rfl | rfl | h
    · exact absurd rfl hm1S
    · have hz200 : z.family ≠ 200 := by
        rcases hclass z hzpot with rfl | rfl | hzp
        · exact absurd rfl hzS
        · exact absurd rfl hzT
        · exact hzp.2.2.2
      exact fun hh => hz200 hh.symm
    · have hm1T : m1 ≠ c6sponsored := fun he => h.2.2.2 (by rw [he]; rfl)
      exact famR_fam_ne (List.rel_of_pairwise_cons hpair1 hz) hm1S hm1T hzS hzT
  have hlenfil : (ordPart pot).length ≤ (ordPart pot1).length + 1 := by
    have hpf := (List.Perm.filter isOrdB hperm1).length_eq
    rw [ordPart, ordPart]
    rw [List.filter_cons] at hpf
    by_cases hmo : isOrdB m1 = true
    · rw [if_pos hmo] at hpf
      rw [hpf, List.length_cons]
    · rw [if_neg hmo] at hpf
      rw [hpf]
      omega
  have hord1len : 3 ≤ (ordPart pot1).length := by omega
  obtain ⟨x2, hx2⟩ : ∃ x, x ∈ ordPart pot1 := by
    cases ho : ordPart pot1 with
    | nil => rw [ho] at hord1len; simp at hord1len
    | cons a as => exact ⟨a, by simp⟩
  rcases List.mem_filter.mp hx2 with ⟨hx2pot1, hx2ord⟩
  rcases isOrdB_ne hx2ord with ⟨hx2S, hx2T⟩
  have hx2pot : x2 ∈ pot := hperm1.mem_iff.mpr (by simp [hx2pot1])
  have hx2props : x2.is_sponsor = false ∧ x2.end_date = none ∧
      x2.family ≠ 100 ∧ x2.family ≠ 200 := by
    rcases hclass x2 hx2pot with rfl | rfl | h
    · exact absurd rfl hx2S
    · exact absurd rfl hx2T
    · exact h
  have hx2pred : ((!x2.is_sponsor) && ordinaryEligible ⟨1, K⟩ ledger t [m1] x2) = true :=
    c6_ord_pred2_true hx2props.1 hx2props.2.1 (inv.hdisj x2 hx2pot hx2ord)
      (hm1fam x2 hx2pot1 hx2ord)
  obtain ⟨m2, pot2, hex2⟩ := extractFirst_of_mem
    (p := fun m => (!m.is_sponsor) && ordinaryEligible ⟨1, K⟩ ledger t [m1] m) hx2pot1 hx2pred
  rcases extractFirst_spec hex2 with ⟨hm2pred, hperm2⟩
  rcases and_parts hm2pred with ⟨hm2nsB, _⟩
  have hm2ns : m2.is_sponsor = false := not_part hm2nsB
  have hm2pot1 : m2 ∈ pot1 := hperm2.mem_iff.mpr (by simp)
  have hm2pot : m2 ∈ pot := hperm1.mem_iff.mpr (by simp [hm2pot1])
  have hm2S : m2 ≠ c6sponsor := fun he => by
    rw [he] at hm2ns
    exact absurd hm2ns (by decide)
  have hpair1' : pot1.Pairwise famR := (List.pairwise_cons.mp hpair1).2
  have hpair2 : (m2 :: pot2).Pairwise famR :=
    (List.Perm.pairwise_iff (fun hxy => famR_symm hxy) hperm2).mp hpair1'
  have hm2fam : ∀ z ∈ pot2, isOrdB z = true → m2.family ≠ z.family := by
    intro z hz hzord
    rcases isOrdB_ne hzord with ⟨hzS, hzT⟩
    have hzpot1 : z ∈ pot1 := hperm2.mem_iff.mpr (by simp [hz])
    have hzpot : z ∈ pot := hperm1.mem_iff.mpr (by simp [hzpot1])
    rcases hclass m2 hm2pot with rfl | rfl | h
    · exact absurd rfl hm2S
    · have hz200 : z.family ≠ 200 := by
        rcases hclass z hzpot with rfl | rfl | hzp
        · exact absurd rfl hzS
        · exact absurd rfl hzT
        · exact hzp.2.2.2
      exact fun hh => hz200 hh.symm
    · have hm2T : m2 ≠ c6sponsored := fun he => h.2.2.2 (by rw [he]; rfl)
      exact famR_fam_ne (List.rel_of_pairwise_cons hpair2 hz) hm2S hm2T hzS hzT
  have hlenfil2 : (ordPart pot1).length ≤ (ordPart pot2).length + 1 := by
    have hpf := (List.Perm.filter isOrdB hperm2).length_eq
    rw [ordPart, ordPart]
    rw [List.filter_cons] at hpf
    by_cases hmo : isOrdB m2 = true
    · rw [if_pos hmo] at hpf
      rw [hpf, List.length_cons]
    · rw [if_neg hmo] at hpf
      rw [hpf]
      omega
  obtain ⟨y, ys, hpot1c⟩ : ∃ a l, pot1 = a :: l := by
    cases pot1 with
    | nil => cases hx2pot1
    | cons a l => exact ⟨a, l, rfl⟩
  obtain ⟨px, pxs, hpotc⟩ : ∃ a l, pot = a :: l := by
    cases pot with
    | nil => cases hm1pot
    | cons a l => exact ⟨a, l, rfl⟩
  refine ⟨m1, m2, pot2, ?_, ?_⟩
  · rw [hpotc] at hspnone hex1
    rw [hpotc, fillDays]
    have hpick : pickSlotOne ⟨1, K⟩ (ords ++ [c6sponsor, c6sponsored]) ledger t (px :: pxs)
        = some (m1, pot1) := by
      rw [pickSlotOne, hspnone, hex1]
    simp only [hpick]
    rw [if_neg (by simp [hm1ns])]
    rw [hpot1c] at hex2 ⊢
    simp only [hex2]
  · constructor
    · rw [List.length_append, inv.hlen, List.length_singleton]
    · refine ⟨tail ++ [⟨t, [m1, m2]⟩], by rw [hled, List.cons_append], ?_⟩
      intro D hD m hm
      rcases List.mem_append.mp hD with hDold | hDnew
      · exact htail D hDold m hm
      · rcases List.mem_singleton.mp hDnew with rfl
        rcases List.mem_cons.mp hm with rfl | hm'
        · exact hm1ns
        · rcases List.mem_cons.mp hm' with rfl | hnil
          · exact hm2ns
          · cases hnil
    · exact ((subperm_of_perm_cons hperm2).trans
        ((subperm_of_perm_cons hperm1).trans inv.hsub))
    · have hSm1 : c6sponsor ≠ m1 := fun h => hm1S h.symm
      have hSm2 : c6sponsor ≠ m2 := fun h => hm2S h.symm
      have e1 := hperm1.count_eq c6sponsor
      rw [List.count_cons_of_ne hSm1] at e1
      have e2 := hperm2.count_eq c6sponsor
      rw [List.count_cons_of_ne hSm2] at e2
      have e0 := inv.hcS
      omega
    · have e1 := count_le_of_perm_cons (a := c6sponsored) hperm1
      have e2 := count_le_of_perm_cons (a := c6sponsored) hperm2
      have e0 := inv.hcT
      omega
    · intro m hm hmord D hD w hw
      have hmpot1 : m ∈ pot1 := hperm2.mem_iff.mpr (by simp [hm])
      have hmpot : m ∈ pot := hperm1.mem_iff.mpr (by simp [hmpot1])
      rcases List.mem_append.mp hD with hDold | hDnew
      · exact inv.hdisj m hmpot hmord D hDold w hw
      · rcases List.mem_singleton.mp hDnew with rfl
        rcases List.mem_cons.mp hw with rfl | hw'
        · exact hm1fam m hmpot1 hmord
        · rcases List.mem_cons.mp hw' with rfl | hnil
          · exact hm2fam m hm hmord
          · cases hnil
    · have ht1 : t + 1 - 1 = (t - 1) + 1 := by omega
      omega

theorem extractFirst_eq_erase {p : Member → Bool} {s : Member} :
    ∀ {l : List Member}, s ∈ l → p s = true → (∀ x ∈ l, p x = true → x = s) →
      extractFirst p l = some (s, l.erase s) := by
  intro l
  induction l with
  | nil => intro h; cases h
  | cons a as ih =>
      intro hmem hps honly
      by_cases hpa : p a = true
      · have ha : a = s := honly a (by simp) hpa
        subst ha
        rw [extractFirst, if_pos hpa, List.erase_cons_head]
      · have hne : a ≠ s := fun he => hpa (he ▸ hps)
        have hmem' : s ∈ as := by
          rcases List.mem_cons.mp hmem with he | h
          · exact absurd he.symm hne
          · exact h
        rw [extractFirst, if_neg (by simp [hpa])]
        simp only [ih hmem' hps (fun x hx hpx => honly x (by simp [hx]) hpx)]
        rw [List.erase_cons, if_neg (by simp [hne])]

theorem populate_pot_append (l1 l2 : List Member) :
    populate_pot (l1 ++ l2) = populate_pot l1 ++ populate_pot l2 := by
  induction l1 with
  | nil => rfl
  | cons a as ih =>
      rw [show populate_pot (a :: as ++ l2)
            = List.replicate (sosRound a.proportion) a ++ populate_pot (as ++ l2) from rfl,
        ih,
        show populate_pot (a :: as)
            = List.replicate (sosRound a.proportion) a ++ populate_pot as from rfl,
        List.append_assoc]

theorem populate_pot_singletons {l : List Member}
    (h : ∀ o ∈ l, sosRound o.proportion = 1) : populate_pot l = l := by
  induction l with
  | nil => rfl
  | cons a as ih =>
      have ha : populate_pot (a :: as)
          = List.replicate (sosRound a.proportion) a ++ populate_pot as := rfl
      rw [ha, h a (by simp), ih (fun o ho => h o (by simp [ho]))]
      rfl

theorem c6_day0 {K : Nat} (ords : List Member) {P : List Member}
    (hords200 : ∀ o ∈ ords, o.family ≠ 200)
    (hPmem : ∀ m ∈ P, m = c6sponsor ∨ m = c6sponsored ∨
        (m.is_sponsor = false ∧ m.end_date = none ∧ m.family ≠ 100 ∧ m.family ≠ 200))
    (hcS : P.count c6sponsor = 2) (hcT : P.count c6sponsored = 2)
    (hsupply : 2 * K + 2 ≤ (ordPart P).length) (ds : List Nat) :
    fillDays ⟨1, K⟩ (ords ++ [c6sponsor, c6sponsored]) (0 :: ds) [] P
      = fillDays ⟨1, K⟩ (ords ++ [c6sponsor, c6sponsored]) ds
          [⟨0, [c6sponsor, c6sponsored]⟩] ((P.erase c6sponsor).erase c6sponsored) ∧
    C6Inv K P 1 [⟨0, [c6sponsor, c6sponsored]⟩]
      ((P.erase c6sponsor).erase c6sponsored) := by
  have hcp : counterpartOf (ords ++ [c6sponsor, c6sponsored]) c6sponsor
      = some c6sponsored := c6_counterpart ords hords200
  have hSP : c6sponsor ∈ P := by
    rw [← List.count_pos_iff_mem]
    omega
  have hpredS : ((c6sponsor).is_sponsor && sponsorEligible ⟨1, K⟩
      (ords ++ [c6sponsor, c6sponsored]) [] 0 c6sponsor) = true := by
    rw [sponsorEligible, hcp]
    rfl
  have honly : ∀ x ∈ P, (x.is_sponsor && sponsorEligible ⟨1, K⟩
      (ords ++ [c6sponsor, c6sponsored]) [] 0 x) = true → x = c6sponsor := by
    intro x hx hpx
    rcases hPmem x hx with rfl | rfl | h
    · rfl
    · rcases and_parts hpx with ⟨h1, _⟩
      exact absurd h1 (by decide)
    · rw [h.1] at hpx
      simp at hpx
  have hexS : extractFirst (fun m => m.is_sponsor && sponsorEligible ⟨1, K⟩
      (ords ++ [c6sponsor, c6sponsored]) [] 0 m) P
      = some (c6sponsor, P.erase c6sponsor) :=
    extractFirst_eq_erase hSP hpredS honly
  obtain ⟨px, pxs, hpotc⟩ : ∃ a l, P = a :: l := by
    cases P with
    | nil => cases hSP
    | cons a l => exact ⟨a, l, rfl⟩
  constructor
  · rw [hpotc] at hexS
    rw [hpotc, fillDays]
    have hpick : pickSlotOne ⟨1, K⟩ (ords ++ [c6sponsor, c6sponsored]) [] 0 (px :: pxs)
        = some (c6sponsor, (px :: pxs).erase c6sponsor) := by
      rw [pickSlotOne, hexS]
    simp only [hpick]
    rw [if_pos (show c6sponsor.is_sponsor = true from rfl)]
    simp only [hcp]
    rw [List.nil_append, ← hpotc]
  · constructor
    · rfl
    · exact ⟨[], rfl, by simp⟩
    · exact ((List.erase_sublist _ _).subperm).trans ((List.erase_sublist _ _).subperm)
    · rw [List.count_erase_of_ne (by decide) , List.count_erase_self, hcS]
    · rw [List.count_erase_self, List.count_erase_of_ne (by decide), hcT]
    · intro m hm hmord D hD w hw
      have hmP : m ∈ P :=
        (List.erase_sublist _ _).subset ((List.erase_sublist _ _).subset hm)
      have hprops : m.is_sponsor = false ∧ m.end_date = none ∧
          m.family ≠ 100 ∧ m.family ≠ 200 := by
        rcases isOrdB_ne hmord with ⟨hS, hT⟩
        rcases hPmem m hmP with rfl | rfl | h
        · exact absurd rfl hS
        · exact absurd rfl hT
        · exact h
      rcases List.mem_singleton.mp hD with rfl
      rcases List.mem_cons.mp hw with rfl | hw'
      · exact fun hh => hprops.2.2.1 hh.symm
      · rcases List.mem_cons.mp hw' with rfl | hnil
        · exact fun hh => hprops.2.2.2 hh.symm
        · cases hnil
    · have h1 : ordPart ((P.erase c6sponsor).erase c6sponsored) = ordPart P := by
        rw [ordPart, ordPart,
          filter_erase_not (by decide) (P.erase c6sponsor),
          filter_erase_not (by decide) P]
      rw [h1]
      omega

theorem c6_chain {K : Nat} (ords : List Member) {P : List Member}
    (hPmem : ∀ m ∈ P, m = c6sponsor ∨ m = c6sponsored ∨
        (m.is_sponsor = false ∧ m.end_date = none ∧ m.family ≠ 100 ∧ m.family ≠ 200))
    (hPpair : P.Pairwise famR) :
    ∀ (j : Nat) {t : Nat}, 1 ≤ t → t + j = K + 1 →
      ∀ {ledger : List Day} {pot : List Member}, C6Inv K P t ledger pot →
      ∀ ds : List Nat,
      ∃ ledger2 pot2,
        fillDays ⟨1, K⟩ (ords ++ [c6sponsor, c6sponsored]) (dateSeq t j ++ ds) ledger pot
          = fillDays ⟨1, K⟩ (ords ++ [c6sponsor, c6sponsored]) ds ledger2 pot2 ∧
        C6Inv K P (K + 1) ledger2 pot2 := by
  intro j
  induction j with
  | zero =>
      intro t h1t hjt ledger pot inv ds
      have ht : t = K + 1 := by omega
      subst ht
      exact ⟨ledger, pot, by rw [dateSeq, List.nil_append], inv⟩
  | succ j ih =>
      intro t h1t hjt ledger pot inv ds
      have htK : t ≤ K := by omega
      rcases c6_step ords hPmem hPpair h1t htK inv
          (dateSeq (t + 1) j ++ ds) with ⟨m1, m2, pot2, heq, inv2⟩
      rcases ih (t := t + 1) (by omega) (by omega) inv2 ds with
        ⟨ledger2, pot3, heq2, inv3⟩
      refine ⟨ledger2, pot3, ?_, inv3⟩
      rw [dateSeq, List.cons_append, heq, heq2]

theorem c6_sponsor_free_cooldown {shp d : Nat} {tail : List Day}
    (htail : ∀ D ∈ tail, ∀ m ∈ D.members, m.is_sponsor = false) :
    tail.all (fun D => (!(D.members.any fun x => x == c6sponsor))
      || decide (shp < d - D.date)) = true := by
  rw [List.all_eq_true]
  intro D hD
  have hno : (D.members.any fun x => x == c6sponsor) = false := by
    rw [List.any_eq_false]
    intro x hx
    simp [beq_iff_eq]
    intro he
    have hxs := htail D hD x hx
    rw [he] at hxs
    exact absurd hxs (by decide)
  simp [hno]

theorem c6_sponsor_unblocked {K : Nat} {tail : List Day}
    (htail : ∀ D ∈ tail, ∀ m ∈ D.members, m.is_sponsor = false) :
    sponsorCooldownOk K (⟨0, [c6sponsor, c6sponsored]⟩ :: tail) (K + 1) c6sponsor
      = true := by
  rw [sponsorCooldownOk, List.all_cons]
  apply and_intro_bool
  · have hlt : K < K + 1 - 0 := by omega
    simp [hlt]
  · exact c6_sponsor_free_cooldown htail

theorem c6_pairday {K : Nat} (ords : List Member) {P : List Member}
    (hords200 : ∀ o ∈ ords, o.family ≠ 200)
    (hPmem : ∀ m ∈ P, m = c6sponsor ∨ m = c6sponsored ∨
        (m.is_sponsor = false ∧ m.end_date = none ∧ m.family ≠ 100 ∧ m.family ≠ 200))
    {ledger : List Day} {pot : List Member}
    (inv : C6Inv K P (K + 1) ledger pot) (ds : List Nat) :
    fillDays ⟨1, K⟩ (ords ++ [c6sponsor, c6sponsored]) ((K + 1) :: ds) ledger pot
      = fillDays ⟨1, K⟩ (ords ++ [c6sponsor, c6sponsored]) ds
          (ledger ++ [⟨K + 1, [c6sponsor, c6sponsored]⟩])
          ((pot.erase c6sponsor).erase c6sponsored) := by
  rcases inv.hhead with ⟨tail, hled, htail⟩
  have hcp : counterpartOf (ords ++ [c6sponsor, c6sponsored]) c6sponsor
      = some c6sponsored := c6_counterpart ords hords200
  have hclass : ∀ m ∈ pot, m = c6sponsor ∨ m = c6sponsored ∨
      (m.is_sponsor = false ∧ m.end_date = none ∧ m.family ≠ 100 ∧ m.family ≠ 200) :=
    fun m hm => hPmem m (inv.hsub.subset hm)
  have hSpot : c6sponsor ∈ pot := by
    rw [← List.count_pos_iff_mem]
    have := inv.hcS
    omega
  have hpredS : ((c6sponsor).is_sponsor && sponsorEligible ⟨1, K⟩
      (ords ++ [c6sponsor, c6sponsored]) ledger (K + 1) c6sponsor) = true := by
    rw [hled, sponsorEligible, hcp]
    have hub := c6_sponsor_unblocked (K := K) htail
    simp [hub]
    exact ⟨rfl, rfl, rfl⟩
  have honly : ∀ x ∈ pot, (x.is_sponsor && sponsorEligible ⟨1, K⟩
      (ords ++ [c6sponsor, c6sponsored]) ledger (K + 1) x) = true → x = c6sponsor := by
    intro x hx hpx
    rcases hclass x hx with rfl | rfl | h
    · rfl
    · rcases and_parts hpx with ⟨h1, _⟩
      exact absurd h1 (by decide)
    · rw [h.1] at hpx
      simp at hpx
  have hexS : extractFirst (fun m => m.is_sponsor && sponsorEligible ⟨1, K⟩
      (ords ++ [c6sponsor, c6sponsored]) ledger (K + 1) m) pot
      = some (c6sponsor, pot.erase c6sponsor) :=
    extractFirst_eq_erase hSpot hpredS honly
  obtain ⟨px, pxs, hpotc⟩ : ∃ a l, pot = a :: l := by
    cases pot with
    | nil => cases hSpot
    | cons a l => exact ⟨a, l, rfl⟩
  rw [hpotc] at hexS
  rw [hpotc, fillDays]
  have hpick : pickSlotOne ⟨1, K⟩ (ords ++ [c6sponsor, c6sponsored]) ledger (K + 1)
      (px :: pxs) = some (c6sponsor, (px :: pxs).erase c6sponsor) := by
    rw [pickSlotOne, hexS]
  simp only [hpick]
  rw [if_pos (show c6sponsor.is_sponsor = true from rfl)]
  simp only [hcp]

theorem c6_endgame {cfg : GenConfig} {roster : List Member} :
    ∀ (n t : Nat) (ledger : List Day) (Q : List Member),
      (∀ m ∈ Q, m.is_sponsor = false ∧ m.end_date = none ∧
          ∀ D ∈ ledger, ∀ x ∈ D.members, x.family ≠ m.family) →
      Q.Pairwise (fun a b => a.family ≠ b.family) →
      Q.length ≤ 2 * n →
      ∃ suf, fillDays cfg roster (dateSeq t n) ledger Q = some (ledger ++ suf) := by
  intro n
  induction n with
  | zero =>
      intro t ledger Q hQ hpair hlen
      cases Q with
      | nil => exact ⟨[], by rw [dateSeq, fillDays, List.append_nil]⟩
      | cons q qs => simp at hlen
  | succ n ih =>
      intro t ledger Q hQ hpair hlen
      cases Q with
      | nil => exact ⟨[], by rw [fillDays, List.append_nil]⟩
      | cons q qs =>
          have hsp : extractFirst (fun m => m.is_sponsor &&
              sponsorEligible cfg roster ledger t m) (q :: qs) = none := by
            apply extractFirst_none_of
            intro x hx
            simp [(hQ x hx).1]
          have hqpred : ((!q.is_sponsor) && ordinaryEligible cfg ledger t [] q)
              = true :=
            c6_ord_pred_true (hQ q (by simp)).1 (hQ q (by simp)).2.1
              (hQ q (by simp)).2.2
          obtain ⟨m1, Q1, hex1⟩ := extractFirst_of_mem
            (p := fun m => (!m.is_sponsor) && ordinaryEligible cfg ledger t [] m)
            (by simp : q ∈ q :: qs) hqpred
          rcases extractFirst_spec hex1 with ⟨hm1pred, hperm1⟩
          rcases and_parts hm1pred with ⟨hm1nsB, _⟩
          have hm1ns : m1.is_sponsor = false := not_part hm1nsB
          have hm1mem : m1 ∈ q :: qs := hperm1.mem_iff.mpr (by simp)
          have hpair1 : (m1 :: Q1).Pairwise (fun a b => a.family ≠ b.family) :=
            (List.Perm.pairwise_iff (fun hxy hh => hxy hh.symm) hperm1).mp hpair
          have hpick : pickSlotOne cfg roster ledger t (q :: qs) = some (m1, Q1) := by
            rw [pickSlotOne, hsp, hex1]
          cases hQ1c : Q1 with
          | nil =>
              subst hQ1c
              refine ⟨[], ?_⟩
              rw [List.append_nil, dateSeq, fillDays]
              simp only [hpick]
              rw [if_neg (by simp [hm1ns])]
          | cons y ys =>
              subst hQ1c
              have hymem : y ∈ y :: ys := by simp
              have hyQ : y ∈ q :: qs := hperm1.mem_iff.mpr (by simp)
              have hypred : ((!y.is_sponsor) && ordinaryEligible cfg ledger t [m1] y)
                  = true :=
                c6_ord_pred2_true (hQ y hyQ).1 (hQ y hyQ).2.1 (hQ y hyQ).2.2
                  (List.rel_of_pairwise_cons hpair1 (by simp))
              obtain ⟨m2, Q2, hex2⟩ := extractFirst_of_mem
                (p := fun m => (!m.is_sponsor) && ordinaryEligible cfg ledger t [m1] m)
                hymem hypred
              rcases extractFirst_spec hex2 with ⟨hm2pred, hperm2⟩
              rcases and_parts hm2pred with ⟨hm2nsB, _⟩
              have hm2ns : m2.is_sponsor = false := not_part hm2nsB
              have hm2memQ1 : m2 ∈ y :: ys := hperm2.mem_iff.mpr (by simp)
              have hm2mem : m2 ∈ q :: qs := hperm1.mem_iff.mpr (by simp [hm2memQ1])
              have hpair2 : (m2 :: Q2).Pairwise (fun a b => a.family ≠ b.family) :=
                (List.Perm.pairwise_iff (fun hxy hh => hxy hh.symm) hperm2).mp
                  (List.pairwise_cons.mp hpair1).2
              have hstep : fillDays cfg roster (dateSeq t (n + 1)) ledger (q :: qs)
                  = fillDays cfg roster (dateSeq (t + 1) n)
                      (ledger ++ [⟨t, [m1, m2]⟩]) Q2 := by
                rw [dateSeq, fillDays]
                simp only [hpick]
                rw [if_neg (by simp [hm1ns])]
                simp only [hex2]
              have hQ2 : ∀ m ∈ Q2, m.is_sponsor = false ∧ m.end_date = none ∧
                  ∀ D ∈ ledger ++ [⟨t, [m1, m2]⟩], ∀ x ∈ D.members,
                    x.family ≠ m.family := by
                intro m hm
                have hmQ1 : m ∈ y :: ys := hperm2.mem_iff.mpr (by simp [hm])
                have hmQ : m ∈ q :: qs := hperm1.mem_iff.mpr (by simp [hmQ1])
                refine ⟨(hQ m hmQ).1, (hQ m hmQ).2.1, ?_⟩
                intro D hD x hx
                rcases List.mem_append.mp hD with hDold | hDnew
                · exact (hQ m hmQ).2.2 D hDold x hx
                · rcases List.mem_singleton.mp hDnew with rfl
                  rcases List.mem_cons.mp hx with rfl | hx'
                  · exact List.rel_of_pairwise_cons hpair1 hmQ1
                  · rcases List.mem_cons.mp hx' with rfl | hnil
                    · exact List.rel_of_pairwise_cons hpair2 hm
                    · cases hnil
              have hlen2 : Q2.length ≤ 2 * n := by
                have e1 := hperm1.length_eq
                have e2 := hperm2.length_eq
                simp only [List.length_cons] at e1 e2 hlen
                omega
              rcases ih (t + 1) (ledger ++ [⟨t, [m1, m2]⟩]) Q2 hQ2
                (List.pairwise_cons.mp hpair2).2 hlen2 with ⟨suf, hsuf⟩
              refine ⟨⟨t, [m1, m2]⟩ :: suf, ?_⟩
              rw [hstep, hsuf, List.append_assoc]
              rfl

/-- C6: with `sponsor_holy_period_length = K` and `holy_period_length = 1`
over an ample roster of distinct-family half-share ordinary members plus one
proportion-100 sponsor/sponsored pair, a generation succeeds on its first
attempt, places the pair on day 1 (index 0), places it again exactly on day
`K + 2` (index `K + 1`), and the sponsor appears on no day in between. -/
theorem c6_sponsor_cooldown_timing (K N : Nat) (ords P : List Member)
    (shuffles : Nat → List Member)
    (hords : ∀ o ∈ ords, o.is_sponsor = false ∧ o.end_date = none ∧
        o.family ≠ 100 ∧ o.family ≠ 200 ∧ sosRound o.proportion = 1)
    (hfams : ords.Pairwise fun a b => a.family ≠ b.family)
    (hample : 2 * K + 2 ≤ ords.length)
    (hP : P.Perm (populate_pot (ords ++ [c6sponsor, c6sponsored])))
    (hN : K + 2 + P.length ≤ N)
    (hsh0 : shuffles 0 = P) :
    ∃ L, generate ⟨1, K⟩ (ords ++ [c6sponsor, c6sponsored]) (dateSeq 0 N) shuffles
        = (Except.ok L, 1) ∧
      K + 1 < L.length ∧
      L.getD 0 ⟨0, []⟩ = ⟨0, [c6sponsor, c6sponsored]⟩ ∧
      L.getD (K + 1) ⟨0, []⟩ = ⟨K + 1, [c6sponsor, c6sponsored]⟩ ∧
      ∀ i, 1 ≤ i → i ≤ K → c6sponsor ∉ (L.getD i ⟨0, []⟩).members := by
  have hords200 : ∀ o ∈ ords, o.family ≠ 200 := fun o ho => (hords o ho).2.2.2.1
  have hpop : populate_pot (ords ++ [c6sponsor, c6sponsored])
      = ords ++ [c6sponsor, c6sponsor, c6sponsored, c6sponsored] := by
    rw [populate_pot_append,
      populate_pot_singletons (fun o ho => (hords o ho).2.2.2.2)]
    rfl
  have hPmem : ∀ m ∈ P, m = c6sponsor ∨ m = c6sponsored ∨
      (m.is_sponsor = false ∧ m.end_date = none ∧ m.family ≠ 100 ∧ m.family ≠ 200) := by
    intro m hm
    have hm2 : m ∈ ords ++ [c6sponsor, c6sponsor, c6sponsored, c6sponsored] := by
      rw [← hpop]
      exact hP.mem_iff.mp hm
    rcases List.mem_append.mp hm2 with ho | hst
    · have h := hords m ho
      exact Or.inr (Or.inr ⟨h.1, h.2.1, h.2.2.1, h.2.2.2.1⟩)
    · rcases List.mem_cons.mp hst with rfl | h1
      · exact Or.inl rfl
      rcases List.mem_cons.mp h1 with rfl | h2
      · exact Or.inl rfl
      rcases List.mem_cons.mp h2 with rfl | h3
      · exact Or.inr (Or.inl rfl)
      rcases List.mem_cons.mp h3 with rfl | h4
      · exact Or.inr (Or.inl rfl)
      · cases h4
  have hSords : c6sponsor ∉ ords := fun hin => (hords _ hin).2.2.1 rfl
  have hTords : c6sponsored ∉ ords := fun hin => (hords _ hin).2.2.2.1 rfl
  have hPpair : P.Pairwise famR := by
    have hpw : (ords ++ [c6sponsor, c6sponsor, c6sponsored, c6sponsored]).Pairwise famR := by
      rw [List.pairwise_append]
      refine ⟨hfams.imp (fun hne => Or.inr (Or.inr (Or.inr (Or.inr hne)))), ?_, ?_⟩
      · refine List.Pairwise.cons (fun b _ => Or.inl rfl) ?_
        refine List.Pairwise.cons (fun b _ => Or.inl rfl) ?_
        refine List.Pairwise.cons (fun b _ => Or.inr (Or.inr (Or.inl rfl))) ?_
        exact List.pairwise_singleton _ _
      · intro a _ b hb
        rcases List.mem_cons.mp hb with rfl | h1
        · exact Or.inr (Or.inl rfl)
        rcases List.mem_cons.mp h1 with rfl | h2
        · exact Or.inr (Or.inl rfl)
        rcases List.mem_cons.mp h2 with rfl | h3
        · exact Or.inr (Or.inr (Or.inr (Or.inl rfl)))
        rcases List.mem_cons.mp h3 with rfl | h4
        · exact Or.inr (Or.inr (Or.inr (Or.inl rfl)))
        · cases h4
    exact (List.Perm.pairwise_iff (fun hxy => famR_symm hxy) hP).mpr
      (by rw [hpop]; exact hpw)
  have hcS : P.count c6sponsor = 2 := by
    rw [hP.count_eq c6sponsor, hpop, List.count_append,
      List.count_eq_zero.mpr hSords]
    decide
  have hcT : P.count c6sponsored = 2 := by
    rw [hP.count_eq c6sponsored, hpop, List.count_append,
      List.count_eq_zero.mpr hTords]
    decide
  have hop : (ordPart P).length = ords.length := by
    have hpf := (List.Perm.filter isOrdB hP).length_eq
    rw [ordPart, hpf, hpop, List.filter_append,
      List.filter_eq_self.mpr
        (fun o ho => isOrdB_of_ord (hords o ho).2.2.1 (hords o ho).2.2.2.1),
      show List.filter isOrdB [c6sponsor, c6sponsor, c6sponsored, c6sponsored] = []
        by decide,
      List.append_nil]
  obtain ⟨r, hrN, hrP⟩ : ∃ r, N = (K + 2) + r ∧ P.length ≤ r :=
    ⟨N - (K + 2), by omega, by omega⟩
  have hdates : dateSeq 0 N = 0 :: (dateSeq 1 K ++ ((K + 1) :: dateSeq (K + 2) r)) := by
    have h1 : N = 1 + (K + (1 + r)) := by omega
    rw [h1, dateSeq_append 1 0 (K + (1 + r)), dateSeq_append K 1 (1 + r),
      dateSeq_append 1 (1 + K) r]
    rw [show dateSeq 0 1 = [0] from rfl, show dateSeq (1 + K) 1 = [1 + K] from rfl]
    rw [show 1 + K = K + 1 by omega, show K + 1 + 1 = K + 2 by omega]
    rfl
  rcases c6_day0 (K := K) ords hords200 hPmem hcS hcT
      (by rw [hop]; exact hample) (dateSeq 1 K ++ ((K + 1) :: dateSeq (K + 2) r)) with
    ⟨hd0eq, hinv1⟩
  rcases c6_chain ords hPmem hPpair K (by omega) (by omega) hinv1
      ((K + 1) :: dateSeq (K + 2) r) with ⟨ledger2, pot2, hchaineq, hinv2⟩
  have hpde := c6_pairday ords hords200 hPmem hinv2 (dateSeq (K + 2) r)
  rcases hinv2.hhead with ⟨tail2, hled2, htail2⟩
  have hcSQ : ((pot2.erase c6sponsor).erase c6sponsored).count c6sponsor = 0 := by
    rw [List.count_erase_of_ne (by decide), List.count_erase_self, hinv2.hcS]
  have hcTQ : ((pot2.erase c6sponsor).erase c6sponsored).count c6sponsored = 0 := by
    rw [List.count_erase_self, List.count_erase_of_ne (by decide)]
    have := hinv2.hcT
    omega
  have hSQ : c6sponsor ∉ (pot2.erase c6sponsor).erase c6sponsored := by
    intro hin
    have := List.count_pos_iff_mem.mpr hin
    omega
  have hTQ : c6sponsored ∉ (pot2.erase c6sponsor).erase c6sponsored := by
    intro hin
    have := List.count_pos_iff_mem.mpr hin
    omega
  have hQsubl : ((pot2.erase c6sponsor).erase c6sponsored).Sublist pot2 :=
    (List.erase_sublist _ _).trans (List.erase_sublist _ _)
  have hQprops : ∀ m ∈ (pot2.erase c6sponsor).erase c6sponsored,
      m.is_sponsor = false ∧ m.end_date = none ∧
      ∀ D ∈ ledger2 ++ [⟨K + 1, [c6sponsor, c6sponsored]⟩], ∀ x ∈ D.members,
        x.family ≠ m.family := by
    intro m hm
    have hmp2 : m ∈ pot2 := hQsubl.subset hm
    rcases hPmem m (hinv2.hsub.subset hmp2) with rfl | rfl | hprops
    · exact absurd hm hSQ
    · exact absurd hm hTQ
    · refine ⟨hprops.1, hprops.2.1, ?_⟩
      intro D hD x hx
      have hmordB : isOrdB m = true := isOrdB_of_ord hprops.2.2.1 hprops.2.2.2
      rcases List.mem_append.mp hD with hDold | hDnew
      · exact hinv2.hdisj m hmp2 hmordB D hDold x hx
      · rcases List.mem_singleton.mp hDnew with rfl
        rcases List.mem_cons.mp hx with rfl | hx'
        · exact fun hh => hprops.2.2.1 hh.symm
        · rcases List.mem_cons.mp hx' with rfl | hnil
          · exact fun hh => hprops.2.2.2 hh.symm
          · cases hnil
  have hQpair : ((pot2.erase c6sponsor).erase c6sponsored).Pairwise
      (fun a b => a.family ≠ b.family) := by
    have hp1 : ((pot2.erase c6sponsor).erase c6sponsored).Pairwise famR :=
      pairwise_of_subperm (hQsubl.subperm.trans hinv2.hsub) hPpair
    refine List.Pairwise.imp_of_mem ?_ hp1
    intro a b ha hb hR
    exact famR_fam_ne hR (fun he => hSQ (he ▸ ha)) (fun he => hTQ (he ▸ ha))
      (fun he => hSQ (he ▸ hb)) (fun he => hTQ (he ▸ hb))
  have hQlen : ((pot2.erase c6sponsor).erase c6sponsored).length ≤ 2 * r := by
    have h1 := hQsubl.length_le
    have h2 := hinv2.hsub.length_le
    omega
  rcases c6_endgame r (K + 2) (ledger2 ++ [⟨K + 1, [c6sponsor, c6sponsored]⟩])
      ((pot2.erase c6sponsor).erase c6sponsored) hQprops hQpair hQlen with ⟨suf, hendeq⟩
  have hrun : runAttempt ⟨1, K⟩ (ords ++ [c6sponsor, c6sponsored]) (dateSeq 0 N) P
      = some ((ledger2 ++ [⟨K + 1, [c6sponsor, c6sponsored]⟩]) ++ suf) := by
    rw [runAttempt, hdates, hd0eq, hchaineq, hpde, hendeq]
  refine ⟨(ledger2 ++ [⟨K + 1, [c6sponsor, c6sponsored]⟩]) ++ suf, ?_, ?_, ?_, ?_, ?_⟩
  · have hrun0 : runAttempt ⟨1, K⟩ (ords ++ [c6sponsor, c6sponsored]) (dateSeq 0 N)
        (shuffles 0) = some ((ledger2 ++ [⟨K + 1, [c6sponsor, c6sponsored]⟩]) ++ suf) := by
      rw [hsh0]
      exact hrun
    rw [generate]
    exact generateLoop_first_ok hrun0 999
  · have := hinv2.hlen
    simp [List.length_append]
    omega
  · rw [hled2, List.cons_append, List.cons_append, List.getD_cons_zero]
  · have hlen12 : (ledger2 ++ [(⟨K + 1, [c6sponsor, c6sponsored]⟩ : Day)]).length = K + 2 := by
      simp [List.length_append, hinv2.hlen]
    rw [List.getD_append _ _ _ _ (by omega),
      List.getD_append_right _ _ _ _ (by rw [hinv2.hlen])]
    rw [hinv2.hlen]
    simp
  · intro i h1i hiK
    have htlen : tail2.length = K := by
      have := hinv2.hlen
      rw [hled2] at this
      simp at this
      omega
    cases i with
    | zero => omega
    | succ j =>
        have hjK : j < K := by omega
        have hgd : ((ledger2 ++ [(⟨K + 1, [c6sponsor, c6sponsored]⟩ : Day)]) ++ suf).getD
            (j + 1) ⟨0, []⟩ = tail2.getD j ⟨0, []⟩ := by
          rw [List.getD_append _ _ _ _ (by simp [hinv2.hlen]; omega),
            List.getD_append _ _ _ _ (by rw [hinv2.hlen]; omega),
            hled2, List.getD_cons_succ]
        rw [hgd]
        have hmem : tail2.getD j ⟨0, []⟩ ∈ tail2 := by
          rw [List.getD_eq_getElem _ _ (by omega)]
          exact List.getElem_mem _
        intro hSin
        have hfalse := htail2 _ hmem _ hSin
        exact absurd hfalse (by decide)

/-- Concrete ample ordinary roster for the C6 witness. -/
def c6ords : List Member :=
  [ { first_name := "A", proportion := 50, family := 1 },
    { first_name := "B", proportion := 50, family := 2 },
    { first_name := "C", proportion := 50, family := 3 },
    { first_name := "D", proportion := 50, family := 4 },
    { first_name := "E", proportion := 50, family := 5 },
    { first_name := "F", proportion := 50, family := 6 } ]

/-- C6 witness: the concrete cooldown-10 scenario scaled to K = 2 with six
ordinary members, run on the unshuffled pool. -/
theorem c6_sponsor_cooldown_timing_witness :
    ∃ L, generate ⟨1, 2⟩ (c6ords ++ [c6sponsor, c6sponsored]) (dateSeq 0 14)
        (fun _ => populate_pot (c6ords ++ [c6sponsor, c6sponsored]))
        = (Except.ok L, 1) ∧
      2 + 1 < L.length ∧
      L.getD 0 ⟨0, []⟩ = ⟨0, [c6sponsor, c6sponsored]⟩ ∧
      L.getD (2 + 1) ⟨0, []⟩ = ⟨2 + 1, [c6sponsor, c6sponsored]⟩ ∧
      ∀ i, 1 ≤ i → i ≤ 2 → c6sponsor ∉ (L.getD i ⟨0, []⟩).members :=
  c6_sponsor_cooldown_timing 2 14 c6ords
    (populate_pot (c6ords ++ [c6sponsor, c6sponsored]))
    (fun _ => populate_pot (c6ords ++ [c6sponsor, c6sponsored]))
    (by decide) (by decide) (by decide) (List.Perm.refl _) (by decide) rfl
